import Mathlib

/-!
Verification of the make-ipinyou-data feature-indexing pipeline.

Shallow embedding of the Python sources (python/mkdata.py, python/mktest.py,
python/mkyzx.py, python/splitadvertisers.py) and of the derived-column SQL
expressions of duckdb_pipeline.py, together with proofs about the embedded
definitions.

Strings are modelled as Lean strings; the Python string helpers used by the
scripts (rstrip, strip, split, slicing, int parsing, lowercasing) are embedded
as structurally recursive functions over the character list of a string so
that every definition evaluates by kernel reduction.
-/

deriving instance DecidableEq for Except

/-! ## Python string primitives -/

/-- Python line.rstrip(chr(10)): drop every trailing newline character. -/
def pyRstripNl (s : String) : String :=
  ⟨(s.data.reverse.dropWhile (fun c => c == '\n')).reverse⟩

/-- Split a character list on a separator character; the list analogue of
Python str.split(sep) for a one-character separator.  The empty string
splits to a single empty field, as in Python. -/
def splitListOn (sep : Char) : List Char → List (List Char)
  | [] => [[]]
  | c :: cs =>
    let r := splitListOn sep cs
    if c == sep then [] :: r
    else
      match r with
      | [] => [[c]]
      | h :: t => (c :: h) :: t

/-- Python s.split(sep) for a one-character separator. -/
def pySplitOn (sep : Char) (s : String) : List String :=
  (splitListOn sep s.data).map (fun l => ⟨l⟩)

/-- Python s.strip(): drop leading and trailing whitespace. -/
def pyStrip (s : String) : String :=
  ⟨((s.data.dropWhile Char.isWhitespace).reverse.dropWhile Char.isWhitespace).reverse⟩

/-- SQL TRIM(s) as used by duckdb_pipeline.py: strips space characters from
both ends (DuckDB TRIM default removes spaces). -/
def sqlTrim (s : String) : String :=
  ⟨((s.data.dropWhile (fun c => c == ' ')).reverse.dropWhile (fun c => c == ' ')).reverse⟩

/-- Python s[a:b] for 0 ≤ a ≤ b (clamping at the end of the string). -/
def pySlice (s : String) (a b : Nat) : String :=
  ⟨(s.data.drop a).take (b - a)⟩

/-- Python s.lower() restricted to ASCII, which is all the scripts feed it. -/
def pyLower (s : String) : String :=
  ⟨s.data.map Char.toLower⟩

/-- True when needle occurs as a contiguous run inside the character list. -/
def hasSub (needle : List Char) : List Char → Bool
  | [] => needle.isPrefixOf []
  | c :: cs => needle.isPrefixOf (c :: cs) || hasSub needle cs

/-- Python needle in haystack for strings. -/
def pyContains (haystack needle : String) : Bool :=
  hasSub needle.data haystack.data

/-- Value of a list of decimal digit characters, most significant first. -/
def digitsVal (l : List Char) : Nat :=
  l.foldl (fun a c => a * 10 + (c.toNat - 48)) 0

/-- True when the character list is a nonempty run of decimal digits. -/
def allDigits (l : List Char) : Bool :=
  !l.isEmpty && l.all Char.isDigit

/-- Python int(s) for base 10: optional surrounding whitespace, optional
sign, at least one digit; None models a ValueError. -/
def pyToInt (s : String) : Option Int :=
  match (pyStrip s).data with
  | '-' :: rest => if allDigits rest then some (-(digitsVal rest : Int)) else none
  | '+' :: rest => if allDigits rest then some ((digitsVal rest : Int)) else none
  | l => if allDigits l then some ((digitsVal l : Int)) else none

/-- line.rstrip(chr(10)).split(chr(9)): how every script turns a raw line
into its field list. -/
def arrOf (line : String) : List String :=
  pySplitOn '\t' (pyRstripNl line)

/-! ## mkyzx.py: constants and per-value transforms -/

/-- mkyzx.py OSES. -/
def OSES : List String := ["windows", "ios", "mac", "android", "linux"]

/-- mkyzx.py BROWSERS. -/
def BROWSERS : List String :=
  ["chrome", "sogou", "maxthon", "safari", "firefox", "theworld", "opera", "ie"]

/-- mkyzx.py F1S: the raw categorical columns. -/
def F1S : List String :=
  ["weekday", "hour", "IP", "region", "city", "adexchange", "domain", "slotid",
   "slotwidth", "slotheight", "slotvisibility", "slotformat", "creative", "advertiser"]

/-- mkyzx.py F1SP: the transformed columns. -/
def F1SP : List String := ["useragent", "slotprice"]

/-- First element of cands occurring in content, else "other"; the
for-loop-with-break pattern of feat_trans. -/
def firstMatch (cands : List String) (content : String) : String :=
  match cands.find? (fun o => pyContains content o) with
  | some o => o
  | none => "other"

/-- mkyzx.py feat_trans. -/
def feat_trans (name content : String) : String :=
  let content := pyLower content
  if name == "useragent" then
    firstMatch OSES content ++ "_" ++ firstMatch BROWSERS content
  else if name == "slotprice" then
    match pyToInt content with
    | some price =>
      if price > 100 then "101+"
      else if price > 50 then "51-100"
      else if price > 10 then "11-50"
      else if price > 0 then "1-10"
      else "0"
    | none => "0"
  else content

/-- mkyzx.py get_tags. -/
def get_tags (content : String) : List String :=
  if content == "\n" || content.length == 0 then ["null"]
  else pySplitOn ',' (pyStrip content)

/-! ## Association lists modelling Python dicts -/

/-- First value stored under the key, the Python d[k] lookup. -/
def assocFind (l : List (String × Nat)) (k : String) : Option Nat :=
  (l.find? (fun p => p.1 == k)).map (fun p => p.2)

/-- Python k in d. -/
def assocMem (l : List (String × Nat)) (k : String) : Bool :=
  l.any (fun p => p.1 == k)

/-- Python d[k] = v: overwrite in place when the key exists (dicts keep the
original position), append otherwise. -/
def assocAssign (l : List (String × Nat)) (k : String) (v : Nat) : List (String × Nat) :=
  if assocMem l k then l.map (fun p => if p.1 == k then (k, v) else p)
  else l ++ [(k, v)]

/-! ## mkyzx.py build_feature_index -/

/-- The featindex dictionary together with the running maxindex counter of
build_feature_index. -/
structure FeatState where
  pairs : List (String × Nat)
  maxindex : Nat
deriving DecidableEq

/-- Python feat in featindex. -/
def featMem (st : FeatState) (k : String) : Bool :=
  assocMem st.pairs k

/-- The guarded insertion pattern of build_feature_index: if feat not in
featindex then featindex[feat] = maxindex; maxindex += 1. -/
def featInsert (st : FeatState) (k : String) : FeatState :=
  if featMem st k then st else ⟨st.pairs ++ [(k, st.maxindex)], st.maxindex + 1⟩

/-- The unguarded dict assignment of the header loop:
featindex[key] = maxindex; maxindex += 1. -/
def featAssign (st : FeatState) (k : String) : FeatState :=
  if featMem st k then
    ⟨st.pairs.map (fun p => if p.1 == k then (k, st.maxindex) else p), st.maxindex + 1⟩
  else ⟨st.pairs ++ [(k, st.maxindex)], st.maxindex + 1⟩

/-- The namecol dictionary: namecol[s[i].strip()] = i for each header
position i in order. -/
def buildNamecol (s : List String) : List (String × Nat) :=
  (List.range s.length).foldl (fun nc i => assocAssign nc (pyStrip (s.getD i "")) i) []

/-- The feature key for position i of an unseen value. -/
def okey (i : Nat) : String :=
  toString i ++ ":other"

/-- Header half of the first-line loop of build_feature_index: for every
position i > 0 register the other key. -/
def processHeader (s : List String) (st : FeatState) : FeatState :=
  (List.range s.length).foldl (fun st i => if i > 0 then featAssign st (okey i) else st) st

/-- One F1S or F1SP feature of one data row of build_feature_index;
useTrans selects the F1SP loop which applies feat_trans. -/
def processCat (namecol : List (String × Nat)) (s : List String) (useTrans : Bool)
    (f : String) (st : FeatState) : FeatState :=
  match assocFind namecol f with
  | none => st
  | some col =>
    if col < s.length then
      let content := if useTrans then feat_trans f (s.getD col "") else s.getD col ""
      featInsert st (toString col ++ ":" ++ content)
    else st

/-- One data row of build_feature_index: the F1S loop, the F1SP loop, then
the usertag expansion. -/
def processRow (namecol : List (String × Nat)) (s : List String) (st : FeatState) : FeatState :=
  let st := F1S.foldl (fun st f => processCat namecol s false f st) st
  let st := F1SP.foldl (fun st f => processCat namecol s true f st) st
  match assocFind namecol "usertag" with
  | none => st
  | some col =>
    if col < s.length then
      (get_tags (s.getD col "")).foldl
        (fun st tag => featInsert st (toString col ++ ":" ++ tag)) st
    else st

/-- mkyzx.py build_feature_index over the lines of the training file.  The
first line is the header; an all-whitespace header or an empty file raises
ValueError, modelled as the error case. -/
def buildFeatureIndex (lines : List String) :
    Except String (List (String × Nat) × FeatState) :=
  match lines with
  | [] => .error "No valid header found in training file"
  | headerLine :: rest =>
    let s := arrOf headerLine
    if s.any (fun col => pyStrip col != "") then
      let namecol := buildNamecol s
      let st0 := processHeader s ⟨[("truncate", 0)], 1⟩
      let st := rest.foldl (fun st line => processRow namecol (arrOf line) st) st0
      .ok (namecol, st)
    else .error "Training file has empty or invalid header"

/-- The namecol component of a build result (empty on error). -/
def ncOf (r : Except String (List (String × Nat) × FeatState)) : List (String × Nat) :=
  match r with
  | .ok (nc, _) => nc
  | .error _ => []

/-- The featindex pairs of a build result (empty on error). -/
def fiOf (r : Except String (List (String × Nat) × FeatState)) : List (String × Nat) :=
  match r with
  | .ok (_, st) => st.pairs
  | .error _ => []

/-- True when the build succeeded. -/
def buildOk (r : Except String (List (String × Nat) × FeatState)) : Bool :=
  match r with
  | .ok _ => true
  | .error _ => false

/-! ## mkyzx.py index_file -/

/-- One F1S or F1SP feature of one row of index_file: look the key up,
fall back to the other key for the column, drop the column when even the
other key is missing. -/
def encodeCat (namecol fi : List (String × Nat)) (s : List String) (useTrans : Bool)
    (f : String) : List Nat :=
  match assocFind namecol f with
  | none => []
  | some col =>
    if col < s.length then
      let content := if useTrans then feat_trans f (s.getD col "") else s.getD col ""
      let feat := toString col ++ ":" ++ content
      let feat := if assocMem fi feat then feat else okey col
      match assocFind fi feat with
      | some id => [id]
      | none => []
    else []

/-- The usertag part of one row of index_file: one id per tag with the same
other fallback per tag. -/
def encodeTags (namecol fi : List (String × Nat)) (s : List String) : List Nat :=
  match assocFind namecol "usertag" with
  | none => []
  | some col =>
    if col < s.length then
      (get_tags (s.getD col "")).foldl
        (fun acc tag =>
          let feat := toString col ++ ":" ++ tag
          let feat := if assocMem fi feat then feat else okey col
          match assocFind fi feat with
          | some id => acc ++ [id]
          | none => acc) []
    else []

/-- One data line of index_file: none when the line has fewer than 24
fields, otherwise the label, the winning price and the emitted feature ids
in output order (truncate first, then F1S, F1SP, usertag). -/
def encodeRow (namecol fi : List (String × Nat)) (line : String) :
    Option (String × String × List Nat) :=
  let s := arrOf line
  if s.length < 24 then none
  else
    let click := s.getD 0 ""
    let wp := if s.length > 23 then s.getD 23 "" else "0"
    let ids := [(assocFind fi "truncate").getD 0]
    let ids := ids ++ F1S.foldl (fun acc f => acc ++ encodeCat namecol fi s false f) []
    let ids := ids ++ F1SP.foldl (fun acc f => acc ++ encodeCat namecol fi s true f) []
    let ids := ids ++ encodeTags namecol fi s
    some (click, wp, ids)

/-! ## Calendar arithmetic for Python datetime.date -/

/-- Gregorian leap-year rule. -/
def isLeap (y : Nat) : Bool :=
  (y % 4 == 0 && y % 100 != 0) || y % 400 == 0

/-- Length of a month (1-12) of a year. -/
def daysInMonth (y m : Nat) : Nat :=
  if m == 2 then (if isLeap y then 29 else 28)
  else if m == 4 || m == 6 || m == 9 || m == 11 then 30
  else 31

/-- Days in the months of year y strictly before month m. -/
def daysBeforeMonth (y m : Nat) : Nat :=
  ((List.range m).filter (fun k => 1 ≤ k)).foldl (fun a k => a + daysInMonth y k) 0

/-- Python date(y, m, d).toordinal(): day count with 0001-01-01 as day 1,
proleptic Gregorian. -/
def toOrdinal (y m d : Nat) : Nat :=
  365 * (y - 1) + (y - 1) / 4 - (y - 1) / 100 + (y - 1) / 400 + daysBeforeMonth y m + d

/-- Python int(date(y, m, d).strftime(percent-w)): day of week with
Sunday = 0.  0001-01-01 was a Monday, so this is the ordinal mod 7. -/
def pyWeekdayW (y m d : Nat) : Nat :=
  toOrdinal y m d % 7

/-- Whether Python date(y, m, d) succeeds: MINYEAR 1 to MAXYEAR 9999 and a
day within the month. -/
def isValidDate (y m d : Int) : Bool :=
  1 ≤ y && y ≤ 9999 && 1 ≤ m && m ≤ 12 && 1 ≤ d &&
    d ≤ (daysInMonth y.toNat m.toNat : Int)

/-! ## mkdata.py and mktest.py process_data -/

/-- The shared hour rule of mkdata.py and mktest.py:
ts[8:10] if len(ts) > 10 else "00". -/
def pyHour (ts : String) : String :=
  if ts.length > 10 then pySlice ts 8 10 else "00"

/-- The two ValueError shapes the timestamp handling raises, carrying the
data interpolated into the message. -/
inductive TsError where
  | invalidFormat (lineNum : Nat) (ts : String)
  | parseFailed (lineNum : Nat) (ts : String)
deriving DecidableEq

/-- The message of the raised ValueError.  The parse-failure message ends
with the nested exception text, elided here after the raw value. -/
def renderTsError : TsError → String
  | .invalidFormat n ts =>
    "Invalid timestamp format at line " ++ toString n ++ ": '" ++ ts ++
      "' (expected at least 8 characters)"
  | .parseFailed n ts =>
    "Failed to parse timestamp at line " ++ toString n ++ ": '" ++ ts ++ "' - "

/-- The timestamp handling shared by mkdata.py and mktest.py process_data:
reject fewer than 8 characters, parse year, month and day, build the date,
and derive the weekday and hour. -/
def parseTs (lineNum : Nat) (ts : String) : Except TsError (Nat × String) :=
  if ts.length < 8 then .error (.invalidFormat lineNum ts)
  else
    match pyToInt (pySlice ts 0 4), pyToInt (pySlice ts 4 6), pyToInt (pySlice ts 6 8) with
    | some y, some m, some d =>
      if isValidDate y m d then
        .ok (pyWeekdayW y.toNat m.toNat d.toNat, pyHour ts)
      else .error (.parseFailed lineNum ts)
    | _, _, _ => .error (.parseFailed lineNum ts)

/-- The enriched row written by process_data: the derived click, weekday and
hour followed by the raw line. -/
structure Enriched where
  click : String
  weekday : Nat
  hour : String
  raw : String
deriving DecidableEq

/-- The composite click key: field 0, a dash, then the creative field. -/
def bidKey (arr : List String) (cIdx : Nat) : String :=
  arr.getD 0 "" ++ "-" ++ arr.getD cIdx ""

/-- The per-file loop of mkdata.py build_click_map with its running line
counter: keys with at least creative_index + 1 fields are assigned. -/
def buildClickMapLines (cIdx : Nat) : Nat → List String → List (String × Nat) →
    List (String × Nat)
  | _, [], bmap => bmap
  | lcnt, line :: rest, bmap =>
    let arr := arrOf line
    buildClickMapLines cIdx (lcnt + 1) rest
      (if cIdx < arr.length then assocAssign bmap (bidKey arr cIdx) lcnt else bmap)

/-- mkdata.py build_click_map over the lines of each click file. -/
def buildClickMap (files : List (List String)) (cIdx : Nat) : List (String × Nat) :=
  files.foldl (fun bmap lines => buildClickMapLines cIdx 0 lines bmap) []

/-- One data line of mkdata.py process_data: ok none when the row is too
short and skipped, ok some when an enriched row is written, error when the
timestamp raises. -/
def mkdataRow (tsIdx cIdx : Nat) (bmap : List (String × Nat)) (lineNum : Nat)
    (line : String) : Except TsError (Option Enriched) :=
  let arr := arrOf line
  if arr.length ≤ max tsIdx cIdx then .ok none
  else
    let bid := bidKey arr cIdx
    let click := if assocMem bmap bid then "1" else "0"
    let ts := arr.getD tsIdx ""
    match parseTs lineNum ts with
    | .error e => .error e
    | .ok (wd, hr) => .ok (some ⟨click, wd, hr, line⟩)

/-- The whole data loop of mkdata.py process_data, enumerating from the
given line number and stopping at the first raised error. -/
def mkdataProcess (tsIdx cIdx : Nat) (bmap : List (String × Nat)) :
    Nat → List String → Except TsError (List Enriched)
  | _, [] => .ok []
  | n, line :: rest =>
    match mkdataRow tsIdx cIdx bmap n line with
    | .error e => .error e
    | .ok none => mkdataProcess tsIdx cIdx bmap (n + 1) rest
    | .ok (some r) =>
      match mkdataProcess tsIdx cIdx bmap (n + 1) rest with
      | .error e => .error e
      | .ok rs => .ok (r :: rs)

/-- One data line of mktest.py process_data.  The click is derived from the
raw second-to-last field before the timestamp bounds are checked. -/
def mktestRow (tsIdx : Nat) (lineNum : Nat) (line : String) :
    Except TsError (Option Enriched) :=
  let arr := arrOf line
  if arr.length < 2 then .ok none
  else
    let click :=
      if decide (2 ≤ arr.length) && (arr.getD (arr.length - 2) "" == "0") then "0" else "1"
    if arr.length ≤ tsIdx then .ok none
    else
      let ts := arr.getD tsIdx ""
      match parseTs lineNum ts with
      | .error e => .error e
      | .ok (wd, hr) => .ok (some ⟨click, wd, hr, line⟩)

/-! ## duckdb_pipeline.py build_processed_table derived columns -/

/-- DuckDB try_strptime(ts, YmdHMS): some date when ts is a 14 digit string
encoding a valid date and time, none otherwise. -/
def tryStrptime14 (ts : String) : Option (Nat × Nat × Nat) :=
  let l := ts.data
  if decide (l.length = 14) && l.all Char.isDigit then
    let y := digitsVal (l.take 4)
    let mo := digitsVal ((l.drop 4).take 2)
    let d := digitsVal ((l.drop 6).take 2)
    let hh := digitsVal ((l.drop 8).take 2)
    let mi := digitsVal ((l.drop 10).take 2)
    let ss := digitsVal ((l.drop 12).take 2)
    if isValidDate (y : Int) (mo : Int) (d : Int) && hh ≤ 23 && mi ≤ 59 && ss ≤ 59 then
      some (y, mo, d)
    else none
  else none

/-- The weekday expression of build_processed_table:
COALESCE(CAST(strftime(percent-w, try_strptime(ts, ...)) AS VARCHAR), '0'). -/
def duckdbWeekday (ts : String) : String :=
  match tryStrptime14 ts with
  | some (y, m, d) => toString (pyWeekdayW y m d)
  | none => "0"

/-- The hour expression of build_processed_table:
CASE WHEN length(ts) >= 10 THEN substr(ts, 9, 2) ELSE '00' END. -/
def duckdbHour (ts : String) : String :=
  if ts.length ≥ 10 then pySlice ts 8 10 else "00"

/-- The test-mode click expression of build_processed_table:
CASE WHEN NULLIF(TRIM(nclick), '') = '0' THEN '0' ELSE '1' END. -/
def duckdbClick (nclick : String) : String :=
  if sqlTrim nclick != "" && sqlTrim nclick == "0" then "0" else "1"

/-- The derived weekday and hour columns of one processed DuckDB row; a
total function: no timestamp value makes build_processed_table fail. -/
def duckdbTimeCols (ts : String) : String × String :=
  (duckdbWeekday ts, duckdbHour ts)

/-! ## splitadvertisers.py split_file_by_advertiser -/

/-- Whether a data line carries advertiser value v at column advIdx: it has
more than advIdx fields and that field equals v. -/
def carries (advIdx : Nat) (v : String) (line : String) : Bool :=
  let fields := arrOf line
  decide (advIdx < fields.length) && (fields.getD advIdx "" == v)

/-- Append a data line to the open file of its advertiser, opening the file
and writing the header first when the advertiser is new. -/
def advAdd (header : String) (acc : List (String × List String)) (adv line : String) :
    List (String × List String) :=
  if acc.any (fun p => p.1 == adv) then
    acc.map (fun p => if p.1 == adv then (p.1, p.2 ++ [line]) else p)
  else acc ++ [(adv, [header, line])]

/-- One data line of split_file_by_advertiser: skip rows with at most
advIdx fields and rows whose advertiser field is empty. -/
def advStep (header : String) (advIdx : Nat) (acc : List (String × List String))
    (line : String) : List (String × List String) :=
  let fields := arrOf line
  if advIdx ≥ fields.length then acc
  else
    let adv := fields.getD advIdx ""
    if adv == "" then acc
    else advAdd header acc adv line

/-- splitadvertisers.py split_file_by_advertiser over the input lines: the
mapping from advertiser value to the written file content (header first,
then that advertiser's rows in order).  An all-whitespace header raises
ValueError; an empty input produces no files. -/
def splitByAdvertiser (lines : List String) (advIdx : Nat) :
    Except String (List (String × List String)) :=
  match lines with
  | [] => .ok []
  | headerLine :: rest =>
    if pyStrip headerLine == "" then .error "Input file has empty header"
    else .ok (rest.foldl (advStep headerLine advIdx) [])

/-- File content lookup in a split result. -/
def advFind (l : List (String × List String)) (k : String) : Option (List String) :=
  (l.find? (fun p => p.1 == k)).map (fun p => p.2)

/-- The split result on success, empty on error. -/
def advOf (r : Except String (List (String × List String))) : List (String × List String) :=
  match r with
  | .ok m => m
  | .error _ => []

/-! ## Decimal representation of Nat: characterization of toString -/

/-- The decimal digit characters of n, most significant first; the
closed-form characterization of the fuel-based Nat.toDigits 10. -/
def natChars (n : Nat) : List Char :=
  if h : n < 10 then [Nat.digitChar n]
  else
    have : n / 10 < n := Nat.div_lt_self (by omega) (by omega)
    natChars (n / 10) ++ [Nat.digitChar (n % 10)]

theorem natChars_ne_nil (n : Nat) : natChars n ≠ [] := by
  rw [natChars]
  split
  · simp
  · simp

theorem toDigitsCore_eq_natChars :
    ∀ (fuel n : Nat) (ds : List Char), n < fuel →
      Nat.toDigitsCore 10 fuel n ds = natChars n ++ ds := by
  intro fuel
  induction fuel with
  | zero => intro n ds h; exact absurd h (Nat.not_lt_zero n)
  | succ f ih =>
    intro n ds h
    rw [Nat.toDigitsCore]
    by_cases h10 : n / 10 = 0
    · have hn : n < 10 := by omega
      rw [if_pos h10, natChars, dif_pos hn, Nat.mod_eq_of_lt hn]
      rfl
    · have hn : ¬ n < 10 := by omega
      have hlt : n / 10 < f := by
        have := Nat.div_lt_self (by omega : 0 < n) (by omega : 1 < 10)
        omega
      rw [if_neg h10, ih (n / 10) _ hlt]
      conv_rhs => rw [natChars]
      rw [dif_neg hn, List.append_assoc, List.singleton_append]

theorem natToString_eq (n : Nat) : toString n = String.mk (natChars n) := by
  show Nat.repr n = String.mk (natChars n)
  rw [Nat.repr, Nat.toDigits, toDigitsCore_eq_natChars (n + 1) n [] (by omega)]
  simp [List.asString]

theorem digitChar_toNat_sub (m : Nat) (h : m < 10) : (Nat.digitChar m).toNat - 48 = m := by
  interval_cases m <;> rfl

theorem digitsVal_append_single (l : List Char) (c : Char) :
    digitsVal (l ++ [c]) = digitsVal l * 10 + (c.toNat - 48) := by
  simp [digitsVal, List.foldl_append]

theorem digitsVal_natChars : ∀ n, digitsVal (natChars n) = n := by
  intro n
  induction n using Nat.strong_induction_on with
  | _ n ih =>
    rw [natChars]
    split
    · next h =>
      simp [digitsVal, digitChar_toNat_sub n h]
    · next h =>
      have hdiv : n / 10 < n := Nat.div_lt_self (by omega) (by omega)
      rw [digitsVal_append_single, ih (n / 10) hdiv,
        digitChar_toNat_sub (n % 10) (Nat.mod_lt n (by omega))]
      omega

theorem natToString_inj {m n : Nat} (h : toString m = toString n) : m = n := by
  rw [natToString_eq, natToString_eq] at h
  have h2 : natChars m = natChars n := congrArg String.data h
  have := congrArg digitsVal h2
  rwa [digitsVal_natChars, digitsVal_natChars] at this

theorem natChars_head_digit : ∀ n c, (natChars n).head? = some c → c.isDigit = true := by
  intro n
  induction n using Nat.strong_induction_on with
  | _ n ih =>
    intro c hc
    rw [natChars] at hc
    split at hc
    · next h =>
      simp at hc
      subst hc
      interval_cases n <;> rfl
    · next h =>
      have hdiv : n / 10 < n := Nat.div_lt_self (by omega) (by omega)
      rw [List.head?_append] at hc
      rcases hne : (natChars (n / 10)).head? with _ | a
      · exact absurd (List.head?_eq_none_iff.mp hne) (natChars_ne_nil _)
      · rw [hne] at hc
        simp at hc
        subst hc
        exact ih (n / 10) hdiv a hne

theorem string_data_append (s t : String) : (s ++ t).data = s.data ++ t.data := rfl

theorem okey_inj {i j : Nat} (h : okey i = okey j) : i = j := by
  apply natToString_inj (m := i) (n := j)
  have hd := congrArg String.data h
  rw [okey, okey, string_data_append, string_data_append] at hd
  exact String.ext (List.append_cancel_right hd)

theorem okey_ne_truncate (i : Nat) : okey i ≠ "truncate" := by
  intro h
  have hd := congrArg String.data h
  rw [okey, string_data_append, natToString_eq] at hd
  rcases hne : (natChars i).head? with _ | a
  · exact absurd (List.head?_eq_none_iff.mp hne) (natChars_ne_nil _)
  · have hdig := natChars_head_digit i a hne
    rcases List.exists_cons_of_ne_nil (natChars_ne_nil i) with ⟨b, t, hbt⟩
    rw [hbt] at hd hne
    simp at hne
    subst hne
    have : b = 't' := by
      have := congrArg List.head? hd
      simpa using this
    rw [this] at hdig
    exact absurd hdig (by decide)

/-! ## Generic fold lemmas -/

theorem foldl_preserve {α σ : Type} (P : σ → Prop) (step : σ → α → σ)
    (l : List α) (h : ∀ s a, a ∈ l → P s → P (step s a)) :
    ∀ s, P s → P (l.foldl step s) := by
  induction l with
  | nil => intro s hs; exact hs
  | cons a t ih =>
    intro s hs
    exact ih (fun s' b hb => h s' b (List.mem_cons_of_mem a hb)) _
      (h s a (List.mem_cons_self a t) hs)

/-! ## Membership and invariant lemmas for the featindex state -/

theorem assocMem_append (l : List (String × Nat)) (k k' : String) (v : Nat) :
    assocMem (l ++ [(k, v)]) k' = (assocMem l k' || k == k') := by
  simp [assocMem, List.any_append]

theorem featMem_featInsert (st : FeatState) (k k' : String) :
    featMem (featInsert st k) k' = (featMem st k' || k == k') := by
  rw [featInsert]
  split
  · next h =>
    by_cases hk : k == k'
    · have : k = k' := by simpa using hk
      subst this
      simp [h]
    · simp [hk]
  · exact assocMem_append st.pairs k k' st.maxindex

theorem featMem_featAssign (st : FeatState) (k k' : String) :
    featMem (featAssign st k) k' = (featMem st k' || k == k') := by
  rw [featAssign]
  split
  · next h =>
    have hkeys : featMem (FeatState.mk
        (st.pairs.map (fun p => if p.1 == k then (k, st.maxindex) else p)) (st.maxindex + 1)) k'
        = featMem st k' := by
      simp only [featMem, assocMem, List.any_map]
      congr 1
      funext p
      by_cases hp : p.1 == k
      · have hpk : p.1 = k := by simpa using hp
        simp [Function.comp, hp, hpk]
      · simp [Function.comp, hp]
    rw [hkeys]
    by_cases hk : k == k'
    · have : k = k' := by simpa using hk
      subst this
      simp [h]
    · simp [hk]
  · exact assocMem_append st.pairs k k' st.maxindex

theorem featAssign_of_fresh (st : FeatState) (k : String) (h : featMem st k = false) :
    featAssign st k = featInsert st k := by
  rw [featAssign, featInsert, if_neg (by simp [h]), if_neg (by simp [h])]

/-- The running invariant of build_feature_index: the counter tracks the
dict size, the ids are exactly 0 .. size-1 in insertion order, and the
first entry is the truncate feature at id 0. -/
def FIinv (st : FeatState) : Prop :=
  st.maxindex = st.pairs.length ∧
  st.pairs.map Prod.snd = List.range st.pairs.length ∧
  st.pairs.head? = some ("truncate", 0)

theorem FIinv_featInsert (st : FeatState) (k : String) (h : FIinv st) :
    FIinv (featInsert st k) := by
  obtain ⟨h1, h2, h3⟩ := h
  rw [featInsert]
  split
  · exact ⟨h1, h2, h3⟩
  · refine ⟨by simp [h1], ?_, ?_⟩
    · simp only [List.map_append, List.length_append, List.map_cons, List.map_nil,
        List.length_cons, List.length_nil]
      rw [h2, h1, List.range_succ]
    · rcases List.exists_cons_of_ne_nil (l := st.pairs)
        (by intro hnil; rw [hnil] at h3; simp at h3) with ⟨p, t, hpt⟩
      rw [hpt] at h3 ⊢
      simpa using h3

theorem FIinv_featAssign_fresh (st : FeatState) (k : String) (hf : featMem st k = false)
    (h : FIinv st) : FIinv (featAssign st k) := by
  rw [featAssign_of_fresh st k hf]
  exact FIinv_featInsert st k h

/-- The header step of build_feature_index. -/
def hstep (st : FeatState) (i : Nat) : FeatState :=
  if i > 0 then featAssign st (okey i) else st

theorem header_go (l : List Nat) :
    ∀ st : FeatState, (∀ i ∈ l, 0 < i → featMem st (okey i) = false) → l.Nodup → FIinv st →
      FIinv (l.foldl hstep st) ∧
      ∀ k', featMem (l.foldl hstep st) k' =
        (featMem st k' || l.any (fun i => decide (0 < i) && (okey i == k'))) := by
  induction l with
  | nil => intro st _ _ hinv; exact ⟨hinv, fun k' => by simp⟩
  | cons i t ih =>
    intro st hfresh hnd hinv
    rcases List.nodup_cons.mp hnd with ⟨hni, hndt⟩
    by_cases hi : 0 < i
    · have hfi : featMem st (okey i) = false := hfresh i (List.mem_cons_self i t) hi
      have hstep_eq : hstep st i = featAssign st (okey i) := by rw [hstep, if_pos hi]
      have hinv' : FIinv (featAssign st (okey i)) := FIinv_featAssign_fresh st _ hfi hinv
      have hfresh' : ∀ j ∈ t, 0 < j → featMem (featAssign st (okey i)) (okey j) = false := by
        intro j hj hjpos
        rw [featMem_featAssign, hfresh j (List.mem_cons_of_mem i hj) hjpos]
        simp only [Bool.false_or]
        by_cases hij : okey i == okey j
        · have : i = j := okey_inj (by simpa using hij)
          subst this
          exact absurd hj hni
        · simpa using hij
      obtain ⟨hinvf, hmemf⟩ := ih (featAssign st (okey i)) hfresh' hndt hinv'
      refine ⟨by rw [List.foldl_cons, hstep_eq]; exact hinvf, ?_⟩
      intro k'
      rw [List.foldl_cons, hstep_eq, hmemf k', featMem_featAssign]
      simp [hi, Bool.or_assoc]
    · have hstep_eq : hstep st i = st := by rw [hstep, if_neg hi]
      have hfresh' : ∀ j ∈ t, 0 < j → featMem st (okey j) = false := fun j hj =>
        hfresh j (List.mem_cons_of_mem i hj)
      obtain ⟨hinvf, hmemf⟩ := ih st hfresh' hndt hinv
      refine ⟨by rw [List.foldl_cons, hstep_eq]; exact hinvf, ?_⟩
      intro k'
      rw [List.foldl_cons, hstep_eq, hmemf k']
      simp [hi]

theorem processHeader_eq (s : List String) (st : FeatState) :
    processHeader s st = (List.range s.length).foldl hstep st := rfl

/-- The initial featindex state: truncate registered at id 0. -/
def initFeat : FeatState := ⟨[("truncate", 0)], 1⟩

theorem FIinv_initFeat : FIinv initFeat := by
  refine ⟨rfl, ?_, rfl⟩
  decide

theorem featMem_initFeat (k : String) : featMem initFeat k = (("truncate" : String) == k) := by
  simp [featMem, assocMem, initFeat]

theorem processHeader_spec (s : List String) :
    FIinv (processHeader s initFeat) ∧
    ∀ k', featMem (processHeader s initFeat) k' =
      ((("truncate" : String) == k') ||
        (List.range s.length).any (fun i => decide (0 < i) && (okey i == k'))) := by
  have hfresh : ∀ i ∈ List.range s.length, 0 < i → featMem initFeat (okey i) = false := by
    intro i _ _
    rw [featMem_initFeat]
    have hne : ("truncate" : String) ≠ okey i := fun he => okey_ne_truncate i he.symm
    exact beq_eq_false_iff_ne.mpr hne
  obtain ⟨hinv, hmem⟩ := header_go (List.range s.length) initFeat hfresh
    (List.nodup_range s.length) FIinv_initFeat
  rw [processHeader_eq]
  exact ⟨hinv, fun k' => by rw [hmem k', featMem_initFeat]⟩

theorem featMem_processHeader_okey (s : List String) (i : Nat) (h0 : 0 < i)
    (hlt : i < s.length) : featMem (processHeader s initFeat) (okey i) = true := by
  rw [(processHeader_spec s).2 (okey i)]
  apply Bool.or_eq_true_iff.mpr
  right
  rw [List.any_eq_true]
  exact ⟨i, List.mem_range.mpr hlt, by simp [h0]⟩

theorem featMem_processHeader_zero_other (s : List String) :
    featMem (processHeader s initFeat) "0:other" = false := by
  rw [(processHeader_spec s).2 "0:other"]
  apply Bool.or_eq_false_iff.mpr
  constructor
  · decide
  · rw [List.any_eq_false]
    intro i _
    by_cases h0 : 0 < i
    · by_cases hk : okey i == "0:other"
      · have : okey i = okey 0 := by
          have h1 := beq_iff_eq.mp hk
          have h2 : okey 0 = "0:other" := by decide
          rw [h1, h2]
        have := okey_inj this
        omega
      · simp [hk]
    · simp [h0]

theorem processCat_preserve (P : FeatState → Prop)
    (hP : ∀ st k, P st → P (featInsert st k))
    (nc : List (String × Nat)) (s : List String) (b : Bool) (f : String)
    (st : FeatState) (h : P st) : P (processCat nc s b f st) := by
  rw [processCat]
  rcases assocFind nc f with _ | col
  · exact h
  · simp only []
    split
    · exact hP st _ h
    · exact h

theorem processRow_preserve (P : FeatState → Prop)
    (hP : ∀ st k, P st → P (featInsert st k))
    (nc : List (String × Nat)) (s : List String)
    (st : FeatState) (h : P st) : P (processRow nc s st) := by
  rw [processRow]
  have h1 : P (F1S.foldl (fun st f => processCat nc s false f st) st) :=
    foldl_preserve P _ F1S (fun st' f _ hp => processCat_preserve P hP nc s false f st' hp) st h
  have h2 : P (F1SP.foldl (fun st f => processCat nc s true f st)
      (F1S.foldl (fun st f => processCat nc s false f st) st)) :=
    foldl_preserve P _ F1SP (fun st' f _ hp => processCat_preserve P hP nc s true f st' hp) _ h1
  rcases assocFind nc "usertag" with _ | col
  · exact h2
  · simp only []
    split
    · exact foldl_preserve P _ _ (fun st' tag _ hp => hP st' _ hp) _ h2
    · exact h2

theorem featMem_mono_featInsert (k' : String) :
    ∀ (st : FeatState) (k : String), featMem st k' = true → featMem (featInsert st k) k' = true := by
  intro st k h
  rw [featMem_featInsert, h, Bool.true_or]

/-- The final featindex state of a successful build. -/
def buildState (headerLine : String) (rest : List String) : FeatState :=
  rest.foldl
    (fun st line => processRow (buildNamecol (arrOf headerLine)) (arrOf line) st)
    (processHeader (arrOf headerLine) initFeat)

theorem buildFeatureIndex_ok_eq (headerLine : String) (rest : List String)
    (h : buildOk (buildFeatureIndex (headerLine :: rest)) = true) :
    buildFeatureIndex (headerLine :: rest) =
      .ok (buildNamecol (arrOf headerLine), buildState headerLine rest) := by
  rw [buildFeatureIndex] at h ⊢
  split at h
  · next hcond =>
    rw [if_pos hcond]
    rfl
  · simp [buildOk] at h

theorem FIinv_buildState (headerLine : String) (rest : List String) :
    FIinv (buildState headerLine rest) := by
  rw [buildState]
  exact foldl_preserve FIinv _ rest
    (fun st line _ hp => processRow_preserve FIinv FIinv_featInsert _ _ st hp) _
    (processHeader_spec (arrOf headerLine)).1

theorem featMem_buildState_okey (headerLine : String) (rest : List String) (i : Nat)
    (h0 : 0 < i) (hlt : i < (arrOf headerLine).length) :
    featMem (buildState headerLine rest) (okey i) = true := by
  rw [buildState]
  exact foldl_preserve (fun st => featMem st (okey i) = true) _ rest
    (fun st line _ hp =>
      processRow_preserve _ (featMem_mono_featInsert (okey i)) _ _ st hp) _
    (featMem_processHeader_okey (arrOf headerLine) i h0 hlt)

/-! ## Bound on namecol values -/

theorem buildNamecol_values_lt (s : List String) :
    ∀ p ∈ buildNamecol s, p.2 < s.length := by
  rw [buildNamecol]
  have := foldl_preserve (fun nc : List (String × Nat) => ∀ p ∈ nc, p.2 < s.length)
    (fun nc i => assocAssign nc (pyStrip (s.getD i "")) i) (List.range s.length)
    ?_ [] (by intro p hp; simp at hp)
  · exact this
  · intro nc i hi hp
    simp only [assocAssign]
    split
    · intro p hpm
      rcases List.mem_map.mp hpm with ⟨q, hq, hqe⟩
      by_cases hqk : q.1 == pyStrip (s.getD i "")
      · rw [if_pos hqk] at hqe
        rw [← hqe]
        exact List.mem_range.mp hi
      · rw [if_neg hqk] at hqe
        rw [← hqe]
        exact hp q hq
    · intro p hpm
      rcases List.mem_append.mp hpm with hq | hq
      · exact hp p hq
      · have : p = (pyStrip (s.getD i ""), i) := by simpa using hq
        rw [this]
        exact List.mem_range.mp hi

theorem assocFind_lt_of_buildNamecol (s : List String) (f : String) (col : Nat)
    (h : assocFind (buildNamecol s) f = some col) : col < s.length := by
  rw [assocFind] at h
  rcases hf : (buildNamecol s).find? (fun p => p.1 == f) with _ | p
  · rw [hf] at h; simp at h
  · rw [hf] at h
    simp at h
    have hmem := List.mem_of_find?_eq_some hf
    have := buildNamecol_values_lt s p hmem
    omega

theorem assocMem_iff_find (l : List (String × Nat)) (k : String) :
    assocMem l k = true ↔ ∃ id, assocFind l k = some id := by
  rw [assocMem, assocFind, List.any_eq_true]
  constructor
  · rintro ⟨p, hp, hk⟩
    rcases hsome : l.find? (fun p => p.1 == k) with _ | q
    · rw [List.find?_eq_none] at hsome
      exact absurd hk (by simpa using hsome p hp)
    · exact ⟨q.2, by rw [hsome]; rfl⟩
  · rintro ⟨id, hid⟩
    rcases hsome : l.find? (fun p => p.1 == k) with _ | q
    · rw [hsome] at hid; simp at hid
    · refine ⟨q, List.mem_of_find?_eq_some hsome, ?_⟩
      exact @List.find?_some _ (fun p => p.1 == k) q l hsome

theorem assocFind_of_head (l : List (String × Nat)) (k : String) (v : Nat)
    (h : l.head? = some (k, v)) : assocFind l k = some v := by
  rcases l with _ | ⟨p, t⟩
  · simp at h
  · have hp : p = (k, v) := by simpa using h
    subst hp
    simp [assocFind, List.find?_cons]

/-! ## Claim C10 -/

/-- C10: after a successful build_feature_index the FeatureIndex ids are
exactly 0 .. size-1 in first-seen insertion order (hence no two keys share
an id), an other key is registered for every header position i with
1 <= i < header length, and the header-processing phase itself never
registers the other key of position 0 (amended: a data row whose column-0
value is the literal other can still add that key later). -/
theorem featureIndex_invariant (headerLine : String) (rest : List String)
    (hok : buildOk (buildFeatureIndex (headerLine :: rest)) = true) :
    (fiOf (buildFeatureIndex (headerLine :: rest))).map Prod.snd =
      List.range (fiOf (buildFeatureIndex (headerLine :: rest))).length ∧
    ((fiOf (buildFeatureIndex (headerLine :: rest))).map Prod.snd).Nodup ∧
    (∀ i, 0 < i → i < (arrOf headerLine).length →
      assocMem (fiOf (buildFeatureIndex (headerLine :: rest))) (okey i) = true) ∧
    assocMem (processHeader (arrOf headerLine) initFeat).pairs "0:other" = false := by
  have heq := buildFeatureIndex_ok_eq headerLine rest hok
  have hfi : fiOf (buildFeatureIndex (headerLine :: rest)) =
      (buildState headerLine rest).pairs := by rw [heq]; rfl
  obtain ⟨_, hrange, _⟩ := FIinv_buildState headerLine rest
  refine ⟨by rw [hfi]; exact hrange, ?_, ?_, featMem_processHeader_zero_other _⟩
  · rw [hfi, hrange]
    exact List.nodup_range _
  · intro i h0 hlt
    rw [hfi]
    exact featMem_buildState_okey headerLine rest i h0 hlt

/-- C10 witness: the invariant evaluated on a concrete two-column header
with one data row. -/
theorem featureIndex_invariant_witness :
    (fiOf (buildFeatureIndex ["bidid\tdomain", "b1\tsina.com"])).map Prod.snd =
      List.range (fiOf (buildFeatureIndex ["bidid\tdomain", "b1\tsina.com"])).length ∧
    ((fiOf (buildFeatureIndex ["bidid\tdomain", "b1\tsina.com"])).map Prod.snd).Nodup ∧
    assocMem (fiOf (buildFeatureIndex ["bidid\tdomain", "b1\tsina.com"])) (okey 1) = true ∧
    assocMem (processHeader (arrOf "bidid\tdomain") initFeat).pairs "0:other" = false := by
  obtain ⟨h1, h2, h3, h4⟩ := featureIndex_invariant "bidid\tdomain" ["b1\tsina.com"] (by decide)
  exact ⟨h1, h2, h3 1 (by decide) (by decide), h4⟩

/-- C10 counterexample: with the categorical column domain at header
position 0 and a data row whose domain value is the literal other, the
built FeatureIndex does contain the key 0:other, refuting the claim that
an other key is never registered for the column at position 0. -/
theorem featureIndex_zero_other_cex :
    assocMem (fiOf (buildFeatureIndex ["domain", "other"])) "0:other" = true ∧
    assocFind (ncOf (buildFeatureIndex ["domain", "other"])) "domain" = some 0 := by
  decide

/-! ## Claim C2 -/

/-- C2: build_feature_index assigns id 0 to the key truncate before any
other key (it is the first entry of the index), and every row encoded by
index_file against the built index carries id 0 as its first id:1 pair. -/
theorem truncate_first (headerLine : String) (rest : List String)
    (hok : buildOk (buildFeatureIndex (headerLine :: rest)) = true) :
    assocFind (fiOf (buildFeatureIndex (headerLine :: rest))) "truncate" = some 0 ∧
    (fiOf (buildFeatureIndex (headerLine :: rest))).head? = some ("truncate", 0) ∧
    ∀ line out,
      encodeRow (ncOf (buildFeatureIndex (headerLine :: rest)))
        (fiOf (buildFeatureIndex (headerLine :: rest))) line = some out →
      out.2.2.head? = some 0 := by
  have heq := buildFeatureIndex_ok_eq headerLine rest hok
  have hfi : fiOf (buildFeatureIndex (headerLine :: rest)) =
      (buildState headerLine rest).pairs := by rw [heq]; rfl
  obtain ⟨_, _, hhead⟩ := FIinv_buildState headerLine rest
  have hfind : assocFind (fiOf (buildFeatureIndex (headerLine :: rest))) "truncate" = some 0 := by
    rw [hfi]
    exact assocFind_of_head _ _ _ hhead
  refine ⟨hfind, by rw [hfi]; exact hhead, ?_⟩
  intro line out hout
  simp only [encodeRow] at hout
  split at hout
  · exact absurd hout (by simp)
  · rw [hfind] at hout
    have hxo := (Option.some.injEq _ _).mp hout
    rw [← hxo]
    rfl

/-- C2 witness: the truncate invariant evaluated on a concrete build and a
concrete encoded row of 24 fields. -/
theorem truncate_first_witness :
    assocFind (fiOf (buildFeatureIndex ["bidid\tcreative", "b1\tcr9"])) "truncate" = some 0 ∧
    (fiOf (buildFeatureIndex ["bidid\tcreative", "b1\tcr9"])).head? = some ("truncate", 0) ∧
    encodeRow (ncOf (buildFeatureIndex ["bidid\tcreative", "b1\tcr9"]))
      (fiOf (buildFeatureIndex ["bidid\tcreative", "b1\tcr9"]))
      "c\tcr9\tz\tz\tz\tz\tz\tz\tz\tz\tz\tz\tz\tz\tz\tz\tz\tz\tz\tz\tz\tz\tz\tz" =
      some ("c", "z", [0, 2]) ∧
    ([0, 2] : List Nat).head? = some 0 := by
  obtain ⟨h1, h2, h3⟩ := truncate_first "bidid\tcreative" ["b1\tcr9"] (by decide)
  refine ⟨h1, h2, by decide, ?_⟩
  exact h3 "c\tcr9\tz\tz\tz\tz\tz\tz\tz\tz\tz\tz\tz\tz\tz\tz\tz\tz\tz\tz\tz\tz\tz\tz"
    ("c", "z", [0, 2]) (by decide)

/-! ## Claim C1 -/

/-- C1 (amended): for every categorical or transformed column whose header
position is at least 1, encoding never drops the column: the other key of
the column is registered, the encoder always emits exactly one id for the
column when the row reaches it, and an unregistered value resolves to the
other id.  For a categorical column at header position 0 no other key is
pre-registered and an unseen value is silently dropped. -/
theorem other_fallback (headerLine : String) (rest : List String) (f : String)
    (col : Nat) (srow : List String) (b : Bool)
    (hok : buildOk (buildFeatureIndex (headerLine :: rest)) = true)
    (_hf : f ∈ F1S ∨ f ∈ F1SP)
    (hcol : assocFind (ncOf (buildFeatureIndex (headerLine :: rest))) f = some col)
    (h0 : 0 < col) (hrow : col < srow.length) :
    ∃ oid, assocFind (fiOf (buildFeatureIndex (headerLine :: rest))) (okey col) = some oid ∧
      (∃ id, encodeCat (ncOf (buildFeatureIndex (headerLine :: rest)))
        (fiOf (buildFeatureIndex (headerLine :: rest))) srow b f = [id]) ∧
      (assocMem (fiOf (buildFeatureIndex (headerLine :: rest)))
          (toString col ++ ":" ++
            (if b then feat_trans f (srow.getD col "") else srow.getD col "")) = false →
        encodeCat (ncOf (buildFeatureIndex (headerLine :: rest)))
          (fiOf (buildFeatureIndex (headerLine :: rest))) srow b f = [oid]) := by
  have heq := buildFeatureIndex_ok_eq headerLine rest hok
  have hfi : fiOf (buildFeatureIndex (headerLine :: rest)) =
      (buildState headerLine rest).pairs := by rw [heq]; rfl
  have hnc : ncOf (buildFeatureIndex (headerLine :: rest)) =
      buildNamecol (arrOf headerLine) := by rw [heq]; rfl
  have hcollt : col < (arrOf headerLine).length :=
    assocFind_lt_of_buildNamecol _ f col (by rw [← hnc]; exact hcol)
  have hmem : assocMem (fiOf (buildFeatureIndex (headerLine :: rest))) (okey col) = true := by
    rw [hfi]
    exact featMem_buildState_okey headerLine rest col h0 hcollt
  obtain ⟨oid, hoid⟩ := (assocMem_iff_find _ _).mp hmem
  refine ⟨oid, hoid, ?_, ?_⟩
  · simp only [encodeCat, hcol]
    rw [if_pos hrow]
    by_cases hprim : assocMem (fiOf (buildFeatureIndex (headerLine :: rest)))
        (toString col ++ ":" ++
          (if b then feat_trans f (srow.getD col "") else srow.getD col "")) = true
    · obtain ⟨id, hid⟩ := (assocMem_iff_find _ _).mp hprim
      rw [hprim, if_pos rfl, hid]
      exact ⟨id, rfl⟩
    · rw [Bool.not_eq_true] at hprim
      rw [hprim]
      simp only [Bool.false_eq_true, if_false]
      rw [hoid]
      exact ⟨oid, rfl⟩
  · intro hprim
    simp only [encodeCat, hcol]
    rw [if_pos hrow, hprim]
    simp only [Bool.false_eq_true, if_false]
    rw [hoid]

/-- C1 witness: the fallback evaluated for the domain column at header
position 1 with an unseen test value, which resolves to the other id 1. -/
theorem other_fallback_witness :
    assocFind (fiOf (buildFeatureIndex ["bidid\tdomain", "b1\tsina"])) (okey 1) = some 1 ∧
    encodeCat (ncOf (buildFeatureIndex ["bidid\tdomain", "b1\tsina"]))
      (fiOf (buildFeatureIndex ["bidid\tdomain", "b1\tsina"])) ["b2", "unseen.com"] false
      "domain" = [1] := by
  obtain ⟨oid, h1, _, h3⟩ :=
    other_fallback "bidid\tdomain" ["b1\tsina"] "domain" 1 ["b2", "unseen.com"] false
      (by decide) (Or.inl (by decide)) (by decide) (by decide) (by decide)
  have hc : assocFind (fiOf (buildFeatureIndex ["bidid\tdomain", "b1\tsina"])) (okey 1) =
      some 1 := by decide
  have hoid : oid = 1 := by
    rw [hc] at h1
    exact ((Option.some.injEq _ _).mp h1).symm
  subst hoid
  exact ⟨hc, h3 (by decide)⟩

/-- C1 counterexample: the categorical column domain sits at header
position 0, so no other key is registered for it; encoding an unseen value
for a column that is present in the training header then emits nothing and
the column is silently dropped, refuting the claim that this happens only
when the column is absent from the training header. -/
theorem other_fallback_position_zero_cex :
    assocFind (ncOf (buildFeatureIndex ["domain", "x"])) "domain" = some 0 ∧
    encodeCat (ncOf (buildFeatureIndex ["domain", "x"]))
      (fiOf (buildFeatureIndex ["domain", "x"])) ["y", "z"] false "domain" = [] ∧
    assocMem (fiOf (buildFeatureIndex ["domain", "x"])) "0:other" = false := by
  decide

/-! ## Claim C6 -/

/-- C6: feat_trans for slotprice always lands in one of the five buckets,
and the documented sample values bucket as specified. -/
theorem slotprice_bucketing :
    (∀ s : String,
      feat_trans "slotprice" s ∈ (["0", "1-10", "11-50", "51-100", "101+"] : List String)) ∧
    (∀ s : String, pyToInt (pyLower s) = none → feat_trans "slotprice" s = "0") ∧
    feat_trans "slotprice" "0" = "0" ∧
    feat_trans "slotprice" "5" = "1-10" ∧
    feat_trans "slotprice" "30" = "11-50" ∧
    feat_trans "slotprice" "75" = "51-100" ∧
    feat_trans "slotprice" "150" = "101+" ∧
    feat_trans "slotprice" "abc" = "0" := by
  refine ⟨?_, ?_, by decide, by decide, by decide, by decide, by decide, by decide⟩
  · intro s
    rw [feat_trans]
    simp only [show (("slotprice" : String) == "useragent") = false from rfl,
      show (("slotprice" : String) == "slotprice") = true from rfl,
      Bool.false_eq_true, if_false, if_true]
    rcases pyToInt (pyLower s) with _ | price
    · simp
    · simp only []
      split
      · simp
      · split
        · simp
        · split
          · simp
          · split
            · simp
            · simp
  · intro s hnone
    rw [feat_trans]
    simp only [show (("slotprice" : String) == "useragent") = false from rfl,
      show (("slotprice" : String) == "slotprice") = true from rfl,
      Bool.false_eq_true, if_false, if_true]
    rw [hnone]

/-- C6 witness: the universal non-numeric clause evaluated on a concrete
non-numeric slotprice value. -/
theorem slotprice_bucketing_witness :
    pyToInt (pyLower "second floor") = none ∧
    feat_trans "slotprice" "second floor" = "0" :=
  ⟨by decide, slotprice_bucketing.2.1 "second floor" (by decide)⟩

/-! ## Claim C7 -/

/-- C7 counterexample: a whitespace-only usertag value does not yield the
single tag null; it yields the single empty tag left by stripping. -/
theorem usertag_whitespace_cex :
    get_tags " " = [""] ∧ get_tags " " ≠ ["null"] ∧ pyStrip " " = "" := by
  decide

/-- C7 (amended): get_tags splits on commas after stripping; an empty value
or the lone newline string yields the single tag null, while a
whitespace-only value yields a single empty tag; the sample value 1,2,3
yields three tags whose three feature keys are registered with three
distinct ids. -/
theorem usertag_expansion :
    get_tags "" = ["null"] ∧
    get_tags "\n" = ["null"] ∧
    get_tags " " = [""] ∧
    (∀ c : String, c ≠ "" → c ≠ "\n" → get_tags c = pySplitOn ',' (pyStrip c)) ∧
    get_tags "1,2,3" = ["1", "2", "3"] ∧
    assocFind (fiOf (buildFeatureIndex ["bidid\tusertag", "b1\t1,2,3"])) "1:1" = some 2 ∧
    assocFind (fiOf (buildFeatureIndex ["bidid\tusertag", "b1\t1,2,3"])) "1:2" = some 3 ∧
    assocFind (fiOf (buildFeatureIndex ["bidid\tusertag", "b1\t1,2,3"])) "1:3" = some 4 := by
  refine ⟨by decide, by decide, by decide, ?_, by decide, by decide, by decide, by decide⟩
  intro c hne hnl
  rw [get_tags, if_neg]
  rw [Bool.or_eq_true, not_or]
  constructor
  · simpa using hnl
  · have : c.length ≠ 0 := by
      intro hlen
      exact hne (String.ext (List.length_eq_zero.mp hlen))
    simpa using this

/-- C7 witness: the splitting rule of the amended claim evaluated on a
concrete non-empty value. -/
theorem usertag_expansion_witness :
    get_tags "fashion,sports" = pySplitOn ',' (pyStrip "fashion,sports") :=
  usertag_expansion.2.2.2.1 "fashion,sports" (by decide) (by decide)

/-! ## Click map membership -/

theorem assocMem_assocAssign (l : List (String × Nat)) (k : String) (v : Nat) (k' : String) :
    assocMem (assocAssign l k v) k' = (assocMem l k' || k == k') := by
  rw [assocAssign]
  split
  · next h =>
    have hkeys : assocMem (l.map (fun p => if p.1 == k then (k, v) else p)) k' = assocMem l k' := by
      simp only [assocMem, List.any_map]
      congr 1
      funext p
      by_cases hp : p.1 == k
      · have hpk : p.1 = k := by simpa using hp
        simp [Function.comp, hp, hpk]
      · simp [Function.comp, hp]
    rw [hkeys]
    by_cases hk : k == k'
    · have : k = k' := by simpa using hk
      subst this
      simp [h]
    · simp [hk]
  · simp [assocMem, List.any_append]

theorem buildClickMapLines_mem (cIdx : Nat) (k : String) :
    ∀ (ls : List String) (n : Nat) (bmap : List (String × Nat)),
      assocMem (buildClickMapLines cIdx n ls bmap) k =
        (assocMem bmap k ||
          ls.any (fun l => decide (cIdx < (arrOf l).length) && (bidKey (arrOf l) cIdx == k))) := by
  intro ls
  induction ls with
  | nil => intro n bmap; simp [buildClickMapLines]
  | cons l t ih =>
    intro n bmap
    rw [buildClickMapLines, ih]
    by_cases hc : cIdx < (arrOf l).length
    · rw [if_pos hc, assocMem_assocAssign]
      simp [hc, Bool.or_assoc]
    · rw [if_neg hc]
      simp [hc]

theorem buildClickMap_mem (files : List (List String)) (cIdx : Nat) (k : String) :
    assocMem (buildClickMap files cIdx) k =
      files.any (fun ls =>
        ls.any (fun l => decide (cIdx < (arrOf l).length) && (bidKey (arrOf l) cIdx == k))) := by
  rw [buildClickMap]
  have hgen : ∀ (fs : List (List String)) (bmap : List (String × Nat)),
      assocMem (fs.foldl (fun bmap lines => buildClickMapLines cIdx 0 lines bmap) bmap) k =
        (assocMem bmap k ||
          fs.any (fun ls =>
            ls.any (fun l => decide (cIdx < (arrOf l).length) && (bidKey (arrOf l) cIdx == k)))) := by
    intro fs
    induction fs with
    | nil => intro bmap; simp
    | cons ls t ih =>
      intro bmap
      rw [List.foldl_cons, ih, buildClickMapLines_mem]
      simp [Bool.or_assoc]
  rw [hgen]
  simp [assocMem]


/-! ## Claim C3 -/

/-- C3: for every impression row retained in training mode the click label
is 1 iff the row's composite bid-creative key is among the keys built from
the click-log files, and 0 otherwise; membership in the built map is
exactly occurrence of the key in some click-log line with enough fields. -/
theorem join_click_iff (tsIdx cIdx n : Nat) (files : List (List String)) (line : String)
    (r : Enriched)
    (h : mkdataRow tsIdx cIdx (buildClickMap files cIdx) n line = .ok (some r)) :
    (r.click = "1" ↔
      assocMem (buildClickMap files cIdx) (bidKey (arrOf line) cIdx) = true) ∧
    (r.click = "0" ↔
      assocMem (buildClickMap files cIdx) (bidKey (arrOf line) cIdx) = false) ∧
    ∀ k, assocMem (buildClickMap files cIdx) k = true ↔
      ∃ ls ∈ files, ∃ l ∈ ls, cIdx < (arrOf l).length ∧ bidKey (arrOf l) cIdx = k := by
  have hclick : r.click =
      (if assocMem (buildClickMap files cIdx) (bidKey (arrOf line) cIdx) then "1" else "0") := by
    simp only [mkdataRow] at h
    split at h
    · simp at h
    · split at h
      · simp at h
      · have h2 := (Option.some.injEq _ _).mp ((Except.ok.injEq _ _).mp h)
        rw [← h2]
  refine ⟨?_, ?_, ?_⟩
  · rw [hclick]
    by_cases hm : assocMem (buildClickMap files cIdx) (bidKey (arrOf line) cIdx) = true
    · simp [hm]
    · rw [Bool.not_eq_true] at hm
      simp [hm]
  · rw [hclick]
    by_cases hm : assocMem (buildClickMap files cIdx) (bidKey (arrOf line) cIdx) = true
    · simp [hm]
    · rw [Bool.not_eq_true] at hm
      simp [hm]
  · intro k
    rw [buildClickMap_mem]
    simp [List.any_eq_true]

/-- C3 witness: the join label evaluated on a concrete click log and a
concrete retained impression row whose key occurs in it. -/
theorem join_click_iff_witness :
    (Enriched.mk "1" 6 "12" "b1\t20130601120000\tcr1").click = "1" ↔
      assocMem (buildClickMap [["b1\tx\tcr1"]] 2)
        (bidKey (arrOf "b1\t20130601120000\tcr1") 2) = true :=
  (join_click_iff 1 2 5 [["b1\tx\tcr1"]] "b1\t20130601120000\tcr1"
    ⟨"1", 6, "12", "b1\t20130601120000\tcr1"⟩ (by decide)).1

/-! ## Claim C4 -/

/-- C4 counterexample: an nclick value of space-zero trims to 0, so the
claim demands label 0, but mktest.py compares the raw untrimmed field and
emits label 1 (the DuckDB engine trims and emits 0). -/
theorem nclick_trim_cex :
    mktestRow 1 1 "b\t20130601120000\t 0\t0" =
      .ok (some ⟨"1", 6, "12", "b\t20130601120000\t 0\t0"⟩) ∧
    pyStrip " 0" = "0" ∧ sqlTrim " 0" = "0" ∧ duckdbClick " 0" = "0" := by
  decide

/-- C4 (amended): in test mode the Python engine mktest.py derives click 0
iff the raw untrimmed second-to-last field equals the literal 0, while the
DuckDB engine derives click 0 iff the trimmed nclick value equals the
literal 0. -/
theorem nclick_rule (tsIdx n : Nat) (line : String) (r : Enriched)
    (h : mktestRow tsIdx n line = .ok (some r)) :
    (r.click = "0" ↔ (arrOf line).getD ((arrOf line).length - 2) "" = "0") ∧
    ∀ v, duckdbClick v = "0" ↔ sqlTrim v = "0" := by
  constructor
  · have hclick : r.click =
        (if decide (2 ≤ (arrOf line).length) &&
            ((arrOf line).getD ((arrOf line).length - 2) "" == "0") then "0" else "1") := by
      simp only [mktestRow] at h
      split at h
      · simp at h
      · split at h
        · simp at h
        · split at h
          · simp at h
          · have h2 := (Option.some.injEq _ _).mp ((Except.ok.injEq _ _).mp h)
            rw [← h2]
    rw [hclick]
    by_cases hb : ((arrOf line).getD ((arrOf line).length - 2) "" == "0") = true
    · have hlen : 2 ≤ (arrOf line).length := by
        by_contra hlt
        simp only [mktestRow] at h
        rw [if_pos (by omega)] at h
        simp at h
      have he : (arrOf line).getD ((arrOf line).length - 2) "" = "0" := by simpa using hb
      simp [hb, hlen, he]
    · rw [Bool.not_eq_true] at hb
      have hne : ¬ (arrOf line).getD ((arrOf line).length - 2) "" = "0" := by
        intro he
        rw [he] at hb
        simp at hb
      rw [hb]
      simp only [Bool.and_false, Bool.false_eq_true, if_false]
      constructor
      · intro h1
        exact absurd h1 (by decide)
      · intro h1
        exact absurd h1 hne
  · intro v
    rw [duckdbClick]
    by_cases hv : sqlTrim v = "0"
    · rw [if_pos]
      · simp [hv]
      · rw [hv]
        simp
    · rw [if_neg]
      · constructor
        · intro h1
          exact absurd h1 (by simp)
        · intro h1
          exact absurd h1 hv
      · intro hc
        rcases Bool.and_eq_true_iff.mp hc with ⟨_, h2⟩
        exact hv (by simpa using h2)

/-- C4 witness: the label rule evaluated on a concrete retained test row
whose raw nclick field is the literal 0, and the DuckDB rule on a padded
value. -/
theorem nclick_rule_witness :
    ((Enriched.mk "0" 6 "12" "b\t20130601120000\t0\t0").click = "0" ↔
      (arrOf "b\t20130601120000\t0\t0").getD
        ((arrOf "b\t20130601120000\t0\t0").length - 2) "" = "0") ∧
    (duckdbClick " 0" = "0" ↔ sqlTrim " 0" = "0") := by
  obtain ⟨h1, h2⟩ := nclick_rule 1 1 "b\t20130601120000\t0\t0"
    ⟨"0", 6, "12", "b\t20130601120000\t0\t0"⟩ (by decide)
  exact ⟨h1, h2 " 0"⟩

/-! ## Claim C5 -/

/-- C5 counterexample: a retained row whose timestamp has exactly 10
characters gets hour 00 from the Python engine although the claim demands
the substring 12 for any timestamp of at least 10 characters (the DuckDB
engine does return the substring). -/
theorem hour_ten_char_cex :
    mkdataRow 1 2 [] 1 "b\t2013060112\tc" = .ok (some ⟨"0", 6, "00", "b\t2013060112\tc"⟩) ∧
    ("2013060112" : String).length = 10 ∧
    pySlice "2013060112" 8 10 = "12" ∧
    duckdbHour "2013060112" = "12" := by
  decide

/-- C5 (amended): for every retained impression row the Python engines set
hour to the substring at offsets 8-10 only when the timestamp has at least
11 characters and to 00 otherwise, while the DuckDB engine uses the
at-least-10 threshold of the claim. -/
theorem hour_rule (tsIdx cIdx n : Nat) (bmap : List (String × Nat)) (line : String)
    (r : Enriched)
    (h : mkdataRow tsIdx cIdx bmap n line = .ok (some r)) :
    (11 ≤ ((arrOf line).getD tsIdx "").length →
      r.hour = pySlice ((arrOf line).getD tsIdx "") 8 10) ∧
    (((arrOf line).getD tsIdx "").length ≤ 10 → r.hour = "00") ∧
    (∀ ts : String, 10 ≤ ts.length → duckdbHour ts = pySlice ts 8 10) ∧
    (∀ ts : String, ts.length < 10 → duckdbHour ts = "00") := by
  have hhour : r.hour = pyHour ((arrOf line).getD tsIdx "") := by
    simp only [mkdataRow] at h
    split at h
    · simp at h
    · rcases heq : parseTs n ((arrOf line).getD tsIdx "") with e | ⟨wd, hr⟩
      · rw [heq] at h
        simp at h
      · rw [heq] at h
        have h2 := (Option.some.injEq _ _).mp ((Except.ok.injEq _ _).mp h)
        have hhr : hr = pyHour ((arrOf line).getD tsIdx "") := by
          simp only [parseTs] at heq
          split at heq
          · simp at heq
          · split at heq
            · split at heq
              · have := (Prod.mk.injEq _ _ _ _).mp ((Except.ok.injEq _ _).mp heq)
                exact this.2.symm
              · simp at heq
            · simp at heq
        rw [← h2, ← hhr]
  refine ⟨?_, ?_, ?_, ?_⟩
  · intro hlen
    rw [hhour, pyHour, if_pos (by omega)]
  · intro hlen
    rw [hhour, pyHour, if_neg (by omega)]
  · intro ts hlen
    rw [duckdbHour, if_pos hlen]
  · intro ts hlen
    rw [duckdbHour, if_neg (by omega)]

/-- C5 witness: the hour rule evaluated on a concrete retained row with a
14 character timestamp and on a concrete 10 character DuckDB timestamp. -/
theorem hour_rule_witness :
    (Enriched.mk "0" 6 "12" "b\t20130601120000\tc").hour =
      pySlice ((arrOf "b\t20130601120000\tc").getD 1 "") 8 10 ∧
    duckdbHour "2013060112" = pySlice "2013060112" 8 10 := by
  obtain ⟨h1, _, h3, _⟩ := hour_rule 1 2 5 [] "b\t20130601120000\tc"
    ⟨"0", 6, "12", "b\t20130601120000\tc"⟩ (by decide)
  exact ⟨h1 (by decide), h3 "2013060112" (by decide)⟩

/-! ## Claim C8 -/

/-- sub occurs verbatim inside s. -/
def occursIn (sub s : String) : Prop :=
  ∃ a b, s = a ++ sub ++ b

/-- C8 (amended): in the Python engines a retained row with a short or
unparsable timestamp makes processing fail with an error whose message
contains the line number and the raw timestamp value; no default weekday
or hour is substituted there.  The DuckDB engine instead coerces silently
(see the counterexample). -/
theorem timestamp_error_reporting :
    (∀ (n : Nat) (ts : String) (e : TsError), parseTs n ts = .error e →
      occursIn (toString n) (renderTsError e) ∧ occursIn ts (renderTsError e)) ∧
    (∀ (tsIdx cIdx : Nat) (bmap : List (String × Nat)) (n : Nat) (line : String) (e : TsError),
      max tsIdx cIdx < (arrOf line).length →
      parseTs n ((arrOf line).getD tsIdx "") = .error e →
      mkdataRow tsIdx cIdx bmap n line = .error e) ∧
    (∀ (tsIdx n : Nat) (line : String) (e : TsError),
      2 ≤ (arrOf line).length → tsIdx < (arrOf line).length →
      parseTs n ((arrOf line).getD tsIdx "") = .error e →
      mktestRow tsIdx n line = .error e) := by
  refine ⟨?_, ?_, ?_⟩
  · intro n ts e he
    have hcases : e = TsError.invalidFormat n ts ∨ e = TsError.parseFailed n ts := by
      simp only [parseTs] at he
      split at he
      · exact Or.inl ((Except.error.injEq _ _).mp he).symm
      · split at he
        · split at he
          · simp at he
          · exact Or.inr ((Except.error.injEq _ _).mp he).symm
        · exact Or.inr ((Except.error.injEq _ _).mp he).symm
    rcases hcases with he' | he' <;> subst he'
    · constructor
      · refine ⟨"Invalid timestamp format at line ",
          ": '" ++ ts ++ "' (expected at least 8 characters)", ?_⟩
        apply String.ext
        simp [renderTsError, string_data_append, List.append_assoc]
      · refine ⟨"Invalid timestamp format at line " ++ toString n ++ ": '",
          "' (expected at least 8 characters)", ?_⟩
        apply String.ext
        simp [renderTsError, string_data_append, List.append_assoc]
    · constructor
      · refine ⟨"Failed to parse timestamp at line ", ": '" ++ ts ++ "' - ", ?_⟩
        apply String.ext
        simp [renderTsError, string_data_append, List.append_assoc]
      · refine ⟨"Failed to parse timestamp at line " ++ toString n ++ ": '", "' - ", ?_⟩
        apply String.ext
        simp [renderTsError, string_data_append, List.append_assoc]
  · intro tsIdx cIdx bmap n line e hlen hparse
    simp only [mkdataRow]
    rw [if_neg (by omega), hparse]
  · intro tsIdx n line e h2 hts hparse
    simp only [mktestRow]
    rw [if_neg (by omega), if_neg (by omega), hparse]

/-- C8 witness: the reporting evaluated on a concrete short timestamp and
a concrete unparsable one. -/
theorem timestamp_error_reporting_witness :
    (occursIn (toString 7) (renderTsError (TsError.invalidFormat 7 "abc")) ∧
      occursIn "abc" (renderTsError (TsError.invalidFormat 7 "abc"))) ∧
    mkdataRow 1 2 [] 7 "b\tabc\tc" = .error (TsError.invalidFormat 7 "abc") ∧
    mktestRow 1 7 "b\tabcdefgh\tc" = .error (TsError.parseFailed 7 "abcdefgh") := by
  obtain ⟨h1, h2, h3⟩ := timestamp_error_reporting
  exact ⟨h1 7 "abc" (TsError.invalidFormat 7 "abc") (by decide),
    h2 1 2 [] 7 "b\tabc\tc" (TsError.invalidFormat 7 "abc") (by decide) (by decide),
    h3 1 7 "b\tabcdefgh\tc" (TsError.parseFailed 7 "abcdefgh") (by decide) (by decide)
      (by decide)⟩

/-- C8 counterexample: the DuckDB engine does not fail on a malformed
8 character timestamp; it silently coerces the row to weekday 0 and hour
00, refuting the claim that the join engine always fails there. -/
theorem timestamp_silent_coerce_cex :
    duckdbTimeCols "abcdefgh" = ("0", "00") ∧
    ("abcdefgh" : String).length = 8 ∧
    tryStrptime14 "abcdefgh" = none := by
  decide

/-! ## Claim C9 -/

theorem find?_map_upd (adv line v : String) (acc : List (String × List String)) :
    (acc.map (fun p => if p.1 == adv then (p.1, p.2 ++ [line]) else p)).find?
        (fun p => p.1 == v) =
      (acc.find? (fun p => p.1 == v)).map
        (fun p => if p.1 == adv then (p.1, p.2 ++ [line]) else p) := by
  induction acc with
  | nil => rfl
  | cons p t ih =>
    have hkey : ((if p.1 == adv then (p.1, p.2 ++ [line]) else p).1 == v) = (p.1 == v) := by
      by_cases hp : (p.1 == adv) = true
      · rw [if_pos hp]
      · rw [if_neg hp]
    simp only [List.map_cons, List.find?_cons, hkey]
    cases hb : (p.1 == v)
    · simpa using ih
    · simp

theorem advFind_advAdd_self (header : String) (acc : List (String × List String))
    (adv line : String) :
    advFind (advAdd header acc adv line) adv =
      (match advFind acc adv with
       | some l => some (l ++ [line])
       | none => some [header, line]) := by
  rw [advAdd]
  split
  · next hmem =>
    rw [advFind, find?_map_upd, advFind]
    rcases hfind : acc.find? (fun p => p.1 == adv) with _ | q
    · rw [List.any_eq_true] at hmem
      rcases hmem with ⟨p, hp, hpk⟩
      rw [List.find?_eq_none] at hfind
      exact absurd hpk (by simpa using hfind p hp)
    · have hq : (q.1 == adv) = true := @List.find?_some _ (fun p => p.1 == adv) q acc hfind
      rw [hfind]
      have hqe : q.1 = adv := by simpa using hq
      simp [hq, hqe]
  · next hmem =>
    have hfalse : acc.any (fun p => p.1 == adv) = false := by
      rw [← Bool.not_eq_true]
      exact hmem
    have hfind : acc.find? (fun p => p.1 == adv) = none := by
      rw [List.find?_eq_none]
      intro p hp
      have := List.any_eq_false.mp hfalse p hp
      simpa using this
    rw [advFind, advFind, List.find?_append, hfind]
    simp [List.find?_cons]

theorem advFind_advAdd_other (header : String) (acc : List (String × List String))
    (adv line v : String) (hne : v ≠ adv) :
    advFind (advAdd header acc adv line) v = advFind acc v := by
  rw [advAdd]
  split
  · rw [advFind, advFind, find?_map_upd]
    rcases hfind : acc.find? (fun p => p.1 == v) with _ | q
    · simp [hfind]
    · have hq : (q.1 == v) = true := @List.find?_some _ (fun p => p.1 == v) q acc hfind
      have hqv : q.1 = v := by simpa using hq
      have hqa : (q.1 == adv) = false := by
        rw [hqv]
        exact beq_eq_false_iff_ne.mpr hne
      have hqne : ¬ q.1 = adv := beq_eq_false_iff_ne.mp hqa
      simp [hfind, hqa, hqne]
  · rw [advFind, advFind, List.find?_append]
    have hv : (((adv, [header, line]) : String × List String).1 == v) = false :=
      beq_eq_false_iff_ne.mpr (fun he => hne he.symm)
    rcases hfind : acc.find? (fun p => p.1 == v) with _ | q
    · simp [List.find?_cons, hv]
    · simp [hfind]

theorem advFold_char (advIdx : Nat) (header v : String) (hv : v ≠ "") :
    ∀ (rest : List String) (acc : List (String × List String)),
      (advFind acc v = none →
        advFind (rest.foldl (advStep header advIdx) acc) v =
          (if rest.filter (carries advIdx v) = [] then none
           else some (header :: rest.filter (carries advIdx v)))) ∧
      (∀ l, advFind acc v = some l →
        advFind (rest.foldl (advStep header advIdx) acc) v =
          some (l ++ rest.filter (carries advIdx v))) := by
  intro rest
  induction rest with
  | nil =>
    intro acc
    constructor
    · intro hnone
      rw [List.foldl_nil, List.filter_nil, if_pos rfl]
      exact hnone
    · intro l hl
      rw [List.foldl_nil, List.filter_nil, List.append_nil]
      exact hl
  | cons line t ih =>
    intro acc
    rw [List.foldl_cons, List.filter_cons]
    by_cases hshort : advIdx ≥ (arrOf line).length
    · have hstep : advStep header advIdx acc line = acc := by
        rw [advStep, if_pos hshort]
      have hcar : carries advIdx v line = false := by
        rw [carries]
        simp only [Bool.and_eq_false_iff]
        left
        simpa using hshort
      rw [hstep, hcar]
      simp only [Bool.false_eq_true, if_neg]
      exact ih acc
    · have hlt : advIdx < (arrOf line).length := by omega
      by_cases hadv : (arrOf line).getD advIdx "" = ""
      · have hstep : advStep header advIdx acc line = acc := by
          rw [advStep, if_neg (by omega), if_pos (by simpa using hadv)]
        have hcar : carries advIdx v line = false := by
          rw [carries]
          simp only [Bool.and_eq_false_iff]
          right
          rw [hadv]
          exact beq_eq_false_iff_ne.mpr (fun he => hv he.symm)
        rw [hstep, hcar]
        simp only [Bool.false_eq_true, if_neg]
        exact ih acc
      · have hstep : advStep header advIdx acc line =
            advAdd header acc ((arrOf line).getD advIdx "") line := by
          rw [advStep, if_neg (by omega), if_neg (by simpa using hadv)]
        by_cases hveq : v = (arrOf line).getD advIdx ""
        · have hcar : carries advIdx v line = true := by
            rw [carries]
            simp [hlt, hveq]
          rw [hstep, hcar]
          simp only [if_pos]
          constructor
          · intro hnone
            have hacc' : advFind (advAdd header acc ((arrOf line).getD advIdx "") line) v =
                some [header, line] := by
              rw [hveq, advFind_advAdd_self, ← hveq, hnone]
            rw [(ih _).2 [header, line] hacc']
            rw [if_neg (by simp)]
            simp
          · intro l hl
            have hacc' : advFind (advAdd header acc ((arrOf line).getD advIdx "") line) v =
                some (l ++ [line]) := by
              rw [hveq, advFind_advAdd_self, ← hveq, hl]
            rw [(ih _).2 (l ++ [line]) hacc']
            simp
        · have hcar : carries advIdx v line = false := by
            rw [carries]
            simp only [Bool.and_eq_false_iff]
            right
            exact beq_eq_false_iff_ne.mpr (fun he => hveq he.symm)
          have hacc' : advFind (advAdd header acc ((arrOf line).getD advIdx "") line) v =
              advFind acc v :=
            advFind_advAdd_other header acc _ line v hveq
          rw [hstep, hcar]
          simp only [Bool.false_eq_true, if_neg]
          constructor
          · intro hnone
            exact (ih _).1 (by rw [hacc']; exact hnone)
          · intro l hl
            exact (ih _).2 l (by rw [hacc']; exact hl)

/-- C9 (amended): for every distinct non-empty advertiser value,
split_file_by_advertiser writes exactly one output file whose first line
is the input header line followed by exactly the data rows carrying that
advertiser value; rows with at most advertiser_index fields and rows whose
advertiser field is empty are silently skipped (an empty advertiser value
gets no file), and an all-whitespace header fails the run. -/
theorem advertiser_split (headerLine : String) (rest : List String) (advIdx : Nat)
    (v : String) (hv : v ≠ "") (hh : pyStrip headerLine ≠ "") :
    advFind (advOf (splitByAdvertiser (headerLine :: rest) advIdx)) v =
      (if rest.filter (carries advIdx v) = [] then none
       else some (headerLine :: rest.filter (carries advIdx v))) ∧
    (∀ (hl : String) (rs : List String), pyStrip hl = "" →
      splitByAdvertiser (hl :: rs) advIdx = .error "Input file has empty header") := by
  constructor
  · have hsplit : splitByAdvertiser (headerLine :: rest) advIdx =
        .ok (rest.foldl (advStep headerLine advIdx) []) := by
      rw [splitByAdvertiser, if_neg]
      intro hc
      exact hh (by simpa using hc)
    rw [hsplit]
    show advFind (rest.foldl (advStep headerLine advIdx) []) v = _
    exact (advFold_char advIdx headerLine v hv rest []).1 rfl
  · intro hl rs hempty
    rw [splitByAdvertiser, if_pos (by simpa using hempty)]

/-- C9 witness: the split evaluated on a concrete input with two
advertisers and an empty-header failure. -/
theorem advertiser_split_witness :
    advFind (advOf (splitByAdvertiser ["h", "r1\ta", "r2\tb", "r3\ta"] 1)) "a" =
      (if (["r1\ta", "r2\tb", "r3\ta"].filter (carries 1 "a")) = [] then none
       else some ("h" :: ["r1\ta", "r2\tb", "r3\ta"].filter (carries 1 "a"))) ∧
    splitByAdvertiser ("" :: ["x"]) 1 = .error "Input file has empty header" := by
  obtain ⟨h1, h2⟩ := advertiser_split "h" ["r1\ta", "r2\tb", "r3\ta"] 1 "a"
    (by decide) (by decide)
  exact ⟨h1, h2 "" ["x"] (by decide)⟩

/-- C9 counterexample: a data row whose advertiser field exists but is the
empty string is silently skipped and no output file is created for the
encountered value, refuting the claim that every distinct advertiser value
encountered in the input gets an output file. -/
theorem advertiser_empty_value_cex :
    splitByAdvertiser ["h1\th2", "a\t"] 1 = .ok [] ∧
    1 < (arrOf "a\t").length ∧
    (arrOf "a\t").getD 1 "" = "" ∧
    advFind (advOf (splitByAdvertiser ["h1\th2", "a\t"] 1)) "" = none := by
  decide
